import Mathlib

/-!
# flibrary: the FB2 metadata ingestion pipeline

A shallow embedding of `main.go` and `model/model.go`.

* Go strings coming out of `encoding/xml` are valid UTF-8, so a Go string is a
  Lean `String` (a list of runes).
* `xml.Decoder` is a list of `Step`s: each call of `dec.Token()` consumes the
  head; the exhausted list is `io.EOF`.
* Go's pair `(result, err)` is a Lean pair `FB2 × Option String`.
-/

namespace Flibrary

/-! ## model/model.go -/

/-- Go `xml.Name`. -/
structure Name where
  Space : String := ""
  Local : String := ""
deriving DecidableEq, Repr

/-- Go `model.Author`. -/
structure Author where
  FirstName : String := ""
  MiddleName : String := ""
  LastName : String := ""
  Nickname : String := ""
deriving DecidableEq, Repr

/-- Go `model.TitleInfo`. -/
structure TitleInfo where
  Genre : String := ""
  Author : Author := {}
  BookTitle : String := ""
  Annotation : List String := []
  Date : String := ""
  Lang : String := ""
deriving DecidableEq, Repr

/-- Go `model.FB2`; `parseXML` never assigns `XMLName`. -/
structure FB2 where
  XMLName : Name := {}
  TitleInfo : TitleInfo := {}
deriving DecidableEq, Repr

/-- Go `model.Book` (`ID` is a `uint64`; the sink never computes with it). -/
structure Book where
  ID : Nat := 0
  Author : String := ""
  AuthorLC : String := ""
  Title : String := ""
  TitleLC : String := ""
  Genre : String := ""
  Annotation : String := ""
  AnnotationLC : String := ""
  Date : String := ""
  ZipFilename : String := ""
  Filename : String := ""
deriving DecidableEq, Repr

/-! ## Go standard library used by main.go -/

/-- Go `strings.Trim(s, cutset)`: drop the leading and trailing runes that
satisfy `cut`. -/
def trimFunc (cut : Char → Bool) (s : String) : String :=
  String.mk ((s.data.dropWhile cut).reverse.dropWhile cut).reverse

/-- The cutset `" \n"` of main.go line 99. -/
def annotationCutset (c : Char) : Bool :=
  c == ' ' || c == '\n'

/-- Go `unicode.IsSpace`: the runes with the Unicode White_Space property. -/
def isSpace (c : Char) : Bool :=
  let n := c.toNat
  (9 ≤ n && n ≤ 13) || n == 32 || n == 0x85 || n == 0xA0 || n == 0x1680 ||
    (0x2000 ≤ n && n ≤ 0x200A) || n == 0x2028 || n == 0x2029 || n == 0x202F ||
    n == 0x205F || n == 0x3000

/-- Go `strings.TrimSpace`. -/
def TrimSpace (s : String) : String :=
  trimFunc isSpace s

/-- Go `strings.Join(elems, sep)`. -/
def Join : List String → String → String
  | [], _ => ""
  | [a], _ => a
  | a :: b :: rest, sep => a ++ sep ++ Join (b :: rest) sep

/-- Go `strings.ToLower`: every rune is mapped through `unicode.ToLower`; the
Unicode case table is the parameter `lowerRune`. -/
def ToLower (lowerRune : Char → Char) (s : String) : String :=
  String.mk (s.data.map lowerRune)

/-- Go `os.IsPathSeparator` on Unix. -/
def isPathSeparator (c : Char) : Bool :=
  c == '/'

/-- Go `filepath.Base` on Unix (no volume names): `"."` for the empty path,
trailing separators stripped, then the part after the last separator, and
`"/"` when nothing is left. -/
def Base (path : String) : String :=
  if path = "" then "."
  else
    let stripped := (path.data.reverse.dropWhile isPathSeparator).reverse
    let last := (stripped.reverse.takeWhile (fun c => !isPathSeparator c)).reverse
    if last = [] then "/" else String.mk last

/-! ## encoding/xml tokens -/

/-- Go `xml.Token` as `parseXML` sees it: of a start or end element only
`Name.Local` is consulted; comments, processing instructions and directives
fall through the type switch. -/
inductive Token where
  | StartElement (name : String)
  | EndElement (name : String)
  | CharData (text : String)
  | Other
deriving DecidableEq, Repr

/-- One call of `dec.Token()`: a token, or an error other than `io.EOF`. -/
inductive Step where
  | tok (t : Token)
  | fail (err : String)
deriving DecidableEq, Repr

/-! ## main.go: parseXML -/

/-- The table `infoTags` (main.go lines 28-52). -/
def infoTags : List (Int × List (String × Bool)) :=
  [ (0, [("FictionBook", false)]),
    (1, [("description", true)]),
    (2, [("title-info", false)]),
    (3, [("genre", false), ("author", false), ("book-title", false),
         ("annotation", false), ("date", false), ("lang", false)]),
    (4, [("first-name", false), ("middle-name", false), ("last-name", false),
         ("nickname", false)]) ]

/-- Go `v, ok := infoTags[depth][name]`: `none` when `ok` is false (a missing
outer key gives the nil map, in which every lookup misses). -/
def lookupTag (depth : Int) (name : String) : Option Bool :=
  match infoTags.lookup depth with
  | none => none
  | some m => m.lookup name

/-- The local variables of the loop of `parseXML`. -/
structure PState where
  depth : Int := 0
  inElement : String := ""
  result : FB2 := {}
deriving DecidableEq, Repr

/-- The `xml.CharData` case for a non-empty `inElement` (lines 80-103). -/
def applyText (inElement : String) (text : String) (result : FB2) : FB2 :=
  match inElement with
  | "genre" => { result with TitleInfo := { result.TitleInfo with Genre := text } }
  | "first-name" =>
    { result with TitleInfo := { result.TitleInfo with
        Author := { result.TitleInfo.Author with FirstName := text } } }
  | "middle-name" =>
    { result with TitleInfo := { result.TitleInfo with
        Author := { result.TitleInfo.Author with MiddleName := text } } }
  | "last-name" =>
    { result with TitleInfo := { result.TitleInfo with
        Author := { result.TitleInfo.Author with LastName := text } } }
  | "nickname" =>
    { result with TitleInfo := { result.TitleInfo with
        Author := { result.TitleInfo.Author with Nickname := text } } }
  | "book-title" => { result with TitleInfo := { result.TitleInfo with BookTitle := text } }
  | "date" => { result with TitleInfo := { result.TitleInfo with Date := text } }
  | "lang" => { result with TitleInfo := { result.TitleInfo with Lang := text } }
  | "annotation" =>
    let text := trimFunc annotationCutset text
    if text.length > 0 then
      { result with TitleInfo := { result.TitleInfo with
          Annotation := result.TitleInfo.Annotation ++ [text] } }
    else result
  | _ => result

/-- One turn of the loop body on a token (lines 70-112): `Sum.inl` is the
state the loop goes on with, `Sum.inr` the result handed back by the `return`
of line 108 (with a nil error). -/
def stepToken (s : PState) : Token → PState ⊕ FB2
  | Token.StartElement name =>
    match lookupTag s.depth name with
    | some _ => Sum.inl { s with inElement := name, depth := s.depth + 1 }
    | none => Sum.inl s
  | Token.CharData text =>
    if s.inElement = "" then Sum.inl s
    else Sum.inl { s with result := applyText s.inElement text s.result }
  | Token.EndElement name =>
    match lookupTag (s.depth - 1) name with
    | some true => Sum.inr s.result
    | some false => Sum.inl { s with depth := s.depth - 1, inElement := "" }
    | none => Sum.inl s
  | Token.Other => Sum.inl s

/-- The loop of `parseXML` from a given state. -/
def parseXMLFrom (s : PState) : List Step → FB2 × Option String
  | [] => (s.result, none)
  | Step.fail err :: _ => (s.result, some err)
  | Step.tok t :: rest =>
    match stepToken s t with
    | Sum.inl s' => parseXMLFrom s' rest
    | Sum.inr r => (r, none)

/-- Go `parseXML`. -/
def parseXML (dec : List Step) : FB2 × Option String :=
  parseXMLFrom {} dec

/-- The loop of `parseXML` on an error-free run of tokens: the state after the
last of them, or the result of the `return` of line 108 if one of them hits it. -/
def scan (s : PState) : List Token → PState ⊕ FB2
  | [] => Sum.inl s
  | t :: rest =>
    match stepToken s t with
    | Sum.inl s' => scan s' rest
    | Sum.inr r => Sum.inr r

/-- The value of `depth` after each token of an error-free run (the list ends
where the loop returns). -/
def depthTrace (s : PState) : List Token → List Int
  | [] => []
  | t :: rest =>
    match stepToken s t with
    | Sum.inl s' => s'.depth :: depthTrace s' rest
    | Sum.inr _ => []

/-! ## main.go: parse (the extraction worker) -/

/-- Lines 143-164 of `parse`: the Record built from a parsed document of the
task `(zipfilename, zf.Name)`. -/
def buildBook (lowerRune : Char → Char) (zipfilename zfName : String) (fb2 : FB2) : Book :=
  let title := TrimSpace fb2.TitleInfo.BookTitle
  let annotation := Join fb2.TitleInfo.Annotation " "
  let authorArr : List String := []
  let authorArr :=
    if fb2.TitleInfo.Author.FirstName ≠ "" then
      authorArr ++ [TrimSpace fb2.TitleInfo.Author.FirstName] else authorArr
  let authorArr :=
    if fb2.TitleInfo.Author.MiddleName ≠ "" then
      authorArr ++ [TrimSpace fb2.TitleInfo.Author.MiddleName] else authorArr
  let authorArr :=
    if fb2.TitleInfo.Author.LastName ≠ "" then
      authorArr ++ [TrimSpace fb2.TitleInfo.Author.LastName] else authorArr
  let author := Join authorArr " "
  { Title := title
    Date := TrimSpace fb2.TitleInfo.Date
    Genre := TrimSpace fb2.TitleInfo.Genre
    Annotation := annotation
    Author := author
    AuthorLC := ToLower lowerRune author
    TitleLC := ToLower lowerRune title
    AnnotationLC := ToLower lowerRune annotation
    Filename := Base zfName
    ZipFilename := zipfilename }

/-- Go `task`, together with what the environment answers for it: `open1` is
the first `task.zf.Open()` (an error, or the token stream the decoder of lines
124-127 reads from the contents), `open2` the reopen of line 132 (an error, or
the token stream read through the forced UTF-16 decoder of lines 133-135). -/
structure Task where
  zipfilename : String
  zfName : String
  open1 : Except String (List Step)
  open2 : Except String (List Step)

/-- What a worker does that can be observed. -/
inductive Event where
  | logged (msg : String)
  | parseAttempt (utf16 : Bool) (failed : Bool)
  | emitted (book : Book)
  | panicked
deriving DecidableEq, Repr

/-- Go `parse`: the loop over the task channel. Line 132 discards the error
of the reopen, so after a failed reopen `contents` is the nil interface and
the first `Read` that `dec.Token()` issues through it is a nil dereference:
the goroutine panics and no further task is taken. -/
def parse (lowerRune : Char → Char) : List Task → List Event
  | [] => []
  | task :: tasks =>
    match task.open1 with
    | Except.error err => Event.logged err :: parse lowerRune tasks
    | Except.ok dec =>
      match parseXML dec with
      | (fb2, none) =>
        Event.parseAttempt false false ::
          Event.emitted (buildBook lowerRune task.zipfilename task.zfName fb2) ::
          parse lowerRune tasks
      | (_, some origErr) =>
        match task.open2 with
        | Except.error _ => [Event.parseAttempt false true, Event.panicked]
        | Except.ok dec2 =>
          match parseXML dec2 with
          | (_, some err) =>
            Event.parseAttempt false true :: Event.parseAttempt true true ::
              Event.logged ("Couldn't decode " ++ task.zipfilename ++ "/" ++ task.zfName ++
                ": " ++ err ++ " (previously: " ++ origErr ++ ")") ::
              parse lowerRune tasks
          | (fb2, none) =>
            Event.parseAttempt false true :: Event.parseAttempt true false ::
              Event.emitted (buildBook lowerRune task.zipfilename task.zfName fb2) ::
              parse lowerRune tasks

/-- The Records a worker sent to `bookchan`. -/
def emittedBooks : List Event → List Book
  | [] => []
  | Event.emitted b :: rest => b :: emittedBooks rest
  | _ :: rest => emittedBooks rest

/-! ## main.go: parseZip (the archive scanner) and the store -/

/-- The table of Records behind `*gorm.DB`. -/
abbrev Store := List Book

/-- The query of line 207:
`Where("zip_filename = ? AND filename = ?", z, f).Count(&c)`. -/
def Count (db : Store) (zipFilename filename : String) : Nat :=
  (db.filter (fun b => b.ZipFilename = zipFilename && b.Filename = filename)).length

/-- Go `db.Save(&book)` for a Record whose primary key is zero, as every
Record built by `parse` is: a new row with the next free key. -/
def Save (db : Store) (book : Book) : Store :=
  db ++ [{ book with ID := (db.map (fun b => b.ID)).foldl max 0 + 1 }]

/-- Go `filepath.Ext` on Unix: the suffix from the last dot of the last path
element, empty if there is none. -/
def Ext (path : String) : String :=
  let last := (path.data.reverse.takeWhile (fun c => !isPathSeparator c))
  if last.contains '.' then String.mk ('.' :: (last.takeWhile (fun c => c != '.')).reverse)
  else ""

/-- One entry of `r.File`: `f.Name` and `f.FileInfo().IsDir()`. -/
structure ZipEntry where
  Name : String
  IsDir : Bool
deriving DecidableEq, Repr

/-- Lines 198-211 of `parseZip` for one opened archive `zf`: the tasks sent to
`taskchan`, as pairs `(t.zipfilename, t.zf.Name)`. -/
def scanArchive (db : Store) (zf : String) : List ZipEntry → List (String × String)
  | [] => []
  | f :: files =>
    if f.IsDir then scanArchive db zf files
    else if Ext f.Name ≠ ".fb2" then scanArchive db zf files
    else
      let zipfilename := Base zf
      if Count db zipfilename f.Name = 0 then
        (zipfilename, f.Name) :: scanArchive db zf files
      else scanArchive db zf files

/-! ## main.go: storeToDB (the persistence sink) -/

/-- Go `5 * time.Second`, in nanoseconds. -/
def fiveSeconds : Int := 5 * 1000000000

/-- One throughput line of `storeToDB`, with the two durations it was computed
from. -/
structure LogLine where
  cnt : Int
  sinceLast : Int
  divisor : Int
  speed : Int
deriving DecidableEq, Repr

/-- The local variables of `storeToDB`; `reads` counts the clock readings
taken so far, `panicked` records an integer division by zero. -/
structure Sink where
  db : Store
  cnt : Int
  start : Int
  last : Int
  reads : Nat
  log : List LogLine
  panicked : Bool
deriving DecidableEq, Repr

/-- The body of the loop of `storeToDB` (lines 224-229). `clock k` is the
monotonic reading, in nanoseconds, of the `k`-th call of `time.Now`;
`d.Seconds() > 5` is `d > 5 * 10^9` and `int64(d.Seconds())` is
`d / 10^9` rounded towards zero (the float64 sum of whole and fractional
seconds decides the comparison exactly, and can exceed the quotient by one
only after months of running). -/
def sinkStep (clock : Nat → Int) (s : Sink) (book : Book) : Sink :=
  if s.panicked then s
  else
    let db := Save s.db book
    let cnt := s.cnt + 1
    let sinceLast := clock s.reads - s.last
    if sinceLast > fiveSeconds then
      let divisor := Int.tdiv (clock (s.reads + 1) - s.start) 1000000000
      if divisor = 0 then
        { s with db := db, cnt := cnt, reads := s.reads + 2, panicked := true }
      else
        { s with db := db, cnt := cnt, reads := s.reads + 2,
                 log := s.log ++ [⟨cnt, sinceLast, divisor, Int.tdiv cnt divisor⟩],
                 last := s.last + fiveSeconds }
    else { s with db := db, cnt := cnt, reads := s.reads + 1 }

/-- Lines 220-222 of `storeToDB`: `start` is the first clock reading. -/
def newSink (clock : Nat → Int) (db : Store) : Sink :=
  { db := db, cnt := 0, start := clock 0, last := clock 0, reads := 1, log := [],
    panicked := false }

/-- Go `storeToDB`, over the Records received from `bookchan`. -/
def storeToDB (clock : Nat → Int) (db : Store) (books : List Book) : Sink :=
  books.foldl (sinkStep clock) (newSink clock db)

/-! ## Shapes of token streams -/

/-- The element names under which the `xml.CharData` case stores text. -/
def capturing (name : String) : Bool :=
  name ∈ ["genre", "first-name", "middle-name", "last-name", "nickname", "book-title",
    "date", "lang", "annotation"]

/-- A token that the table does not recognise at `depth`: a start tag with no
entry at `depth`, an end tag with no entry at `depth - 1`, text, or a token of
another kind. -/
def ignoredAt (depth : Int) : Token → Bool
  | Token.StartElement name => (lookupTag depth name).isNone
  | Token.EndElement name => (lookupTag (depth - 1) name).isNone
  | Token.CharData _ => true
  | Token.Other => true

/-- A run of text and unrecognised elements at `depth`. -/
def Ignored (depth : Int) (toks : List Token) : Prop :=
  ∀ t ∈ toks, ignoredAt depth t = true

instance (depth : Int) (toks : List Token) : Decidable (Ignored depth toks) :=
  inferInstanceAs (Decidable (∀ t ∈ toks, ignoredAt depth t = true))

/-- An element holding a single text token. -/
def element (name text : String) : List Token :=
  [Token.StartElement name, Token.CharData text, Token.EndElement name]

/-- The items of a list, each followed by its own run of other tokens. -/
def interleave {α : Type} (tokens : α → List Token) : List (α × List Token) → List Token
  | [] => []
  | (a, gap) :: rest => tokens a ++ gap ++ interleave tokens rest

/-- A child of `author` with a single text token. -/
inductive AuthorItem where
  | firstName (text : String)
  | middleName (text : String)
  | lastName (text : String)
  | nickname (text : String)
deriving DecidableEq, Repr

/-- The tokens of a child of `author`. -/
def AuthorItem.tokens : AuthorItem → List Token
  | AuthorItem.firstName text => element "first-name" text
  | AuthorItem.middleName text => element "middle-name" text
  | AuthorItem.lastName text => element "last-name" text
  | AuthorItem.nickname text => element "nickname" text

/-- The field a child of `author` is stored in. -/
def AuthorItem.store : Author → AuthorItem → Author
  | a, AuthorItem.firstName text => { a with FirstName := text }
  | a, AuthorItem.middleName text => { a with MiddleName := text }
  | a, AuthorItem.lastName text => { a with LastName := text }
  | a, AuthorItem.nickname text => { a with Nickname := text }

/-- A child of `title-info`: one of the four text elements, or an `author`
element with its leading run of other tokens and its children. -/
inductive InfoItem where
  | genre (text : String)
  | bookTitle (text : String)
  | date (text : String)
  | lang (text : String)
  | author (lead : List Token) (children : List (AuthorItem × List Token))
deriving DecidableEq, Repr

/-- The tokens of a child of `title-info`. -/
def InfoItem.tokens : InfoItem → List Token
  | InfoItem.genre text => element "genre" text
  | InfoItem.bookTitle text => element "book-title" text
  | InfoItem.date text => element "date" text
  | InfoItem.lang text => element "lang" text
  | InfoItem.author lead children =>
    Token.StartElement "author" :: (lead ++ interleave AuthorItem.tokens children) ++
      [Token.EndElement "author"]

/-- The field a child of `title-info` is stored in. -/
def InfoItem.store : TitleInfo → InfoItem → TitleInfo
  | ti, InfoItem.genre text => { ti with Genre := text }
  | ti, InfoItem.bookTitle text => { ti with BookTitle := text }
  | ti, InfoItem.date text => { ti with Date := text }
  | ti, InfoItem.lang text => { ti with Lang := text }
  | ti, InfoItem.author _ children =>
    { ti with Author := (children.map Prod.fst).foldl AuthorItem.store ti.Author }

/-- A document up to and including the end tag of `title-info`, followed by
`post2`: `pre0` .. `pre3` are the runs of other tokens before `FictionBook`,
`description`, `title-info` and the first child of `title-info`. -/
def document (pre0 pre1 pre2 pre3 : List Token) (items : List (InfoItem × List Token))
    (post2 : List Token) : List Token :=
  pre0 ++ Token.StartElement "FictionBook" :: pre1 ++ Token.StartElement "description" ::
    pre2 ++ Token.StartElement "title-info" :: pre3 ++ interleave InfoItem.tokens items ++
    Token.EndElement "title-info" :: post2

/-- The result with its author replaced. -/
def withAuthor (r : FB2) (a : Author) : FB2 :=
  { r with TitleInfo := { r.TitleInfo with Author := a } }

/-- The result with its title-info replaced. -/
def withTitleInfo (r : FB2) (ti : TitleInfo) : FB2 :=
  { r with TitleInfo := ti }

/-! ## Sample inputs -/

/-- Children of an `author` element, out of schema order, with whitespace and
a `home-page` element between them. -/
def sampleChildren : List (AuthorItem × List Token) :=
  [ (AuthorItem.lastName "Doe", [Token.CharData "\n    "]),
    (AuthorItem.firstName "Jane",
      [Token.StartElement "home-page", Token.CharData "http://example.org",
       Token.EndElement "home-page"]),
    (AuthorItem.nickname "JD", []),
    (AuthorItem.middleName "Q.", [Token.CharData "\n   "]) ]

/-- Children of a `title-info` element, with whitespace, a comment, and
`keywords` and `translator` elements between them. -/
def sampleItems : List (InfoItem × List Token) :=
  [ (InfoItem.genre "sf_fantasy", [Token.CharData "\n   "]),
    (InfoItem.author [Token.CharData "\n    "] sampleChildren, [Token.Other]),
    (InfoItem.bookTitle "A Title",
      [Token.StartElement "keywords", Token.CharData "k1, k2", Token.EndElement "keywords"]),
    (InfoItem.lang "en",
      [Token.StartElement "translator", Token.StartElement "first-name", Token.CharData "T",
       Token.EndElement "first-name", Token.EndElement "translator"]),
    (InfoItem.date "2001", [Token.CharData "\n  "]) ]

/-- A whole document around `sampleItems`, with a `document-info` section
after `title-info`. -/
def sampleDocument : List Token :=
  document [Token.Other, Token.CharData "\n"] [Token.CharData "\n "] [Token.CharData "\n  "]
    [Token.CharData "\n   "] sampleItems
    [Token.StartElement "document-info", Token.StartElement "author",
     Token.StartElement "nickname", Token.CharData "scanner", Token.EndElement "nickname",
     Token.EndElement "author", Token.EndElement "document-info"]

/-- A document with a body and no description. -/
def sampleBodyOnly : List Token :=
  [Token.Other, Token.StartElement "FictionBook", Token.CharData "\n",
   Token.StartElement "body", Token.StartElement "p", Token.CharData "Once upon a time",
   Token.EndElement "p", Token.EndElement "body", Token.EndElement "FictionBook"]

/-- A document up to the end tag of `title-info`, with one genre. -/
def closedTitleInfo : List Token :=
  [Token.StartElement "FictionBook", Token.StartElement "description",
   Token.StartElement "title-info", Token.StartElement "genre", Token.CharData "sf",
   Token.EndElement "genre", Token.EndElement "title-info"]

/-- A second `title-info` element and the end tag of `description`. -/
def secondTitleInfo : List Token :=
  [Token.StartElement "title-info", Token.StartElement "genre", Token.CharData "prose",
   Token.EndElement "genre", Token.EndElement "title-info", Token.EndElement "description"]

/-- The document `closedTitleInfo` followed by an empty `document-info`. -/
def closedDocumentInfo : List Token :=
  closedTitleInfo ++ [Token.CharData "\n  ", Token.StartElement "document-info",
    Token.EndElement "document-info", Token.CharData "\n "]

/-- A well-nested document whose annotation holds a `date` element followed
by text. -/
def annotatedDate : List Token :=
  [Token.StartElement "FictionBook", Token.StartElement "description",
   Token.StartElement "title-info", Token.StartElement "annotation",
   Token.StartElement "date", Token.CharData "1900", Token.EndElement "date",
   Token.CharData "Body text", Token.EndElement "annotation", Token.EndElement "title-info"]

/-- A parsed document whose first name is a single space. -/
def whitespaceFirstName : FB2 :=
  { TitleInfo := { Author := { FirstName := " ", LastName := "Doe", Nickname := "JD" } } }

/-- The parsed author of the specification's example. -/
def janeDoe : FB2 :=
  { TitleInfo := { Author := { FirstName := "Jane", LastName := "Doe", Nickname := "JD" } } }

/-- A task whose entry opens, fails to parse, and cannot be reopened. -/
def reopenFails : Task :=
  { zipfilename := "lib.zip", zfName := "a.fb2",
    open1 := Except.ok [Step.fail "XML syntax error"], open2 := Except.error "read error" }

/-- A task whose entry parses at the first attempt. -/
def plainTask : Task :=
  { zipfilename := "lib.zip", zfName := "b.fb2",
    open1 := Except.ok (sampleDocument.map Step.tok ++ [Step.tok (Token.EndElement "description")]),
    open2 := Except.ok [] }

/-- The Record of `plainTask`, lowercased by the ASCII case table. -/
def plainBook : Book :=
  { Author := "Jane Q. Doe", AuthorLC := "jane q. doe", Title := "A Title", TitleLC := "a title",
    Genre := "sf_fantasy", Date := "2001", ZipFilename := "lib.zip", Filename := "b.fb2" }

/-- A clock that advances three seconds between readings. -/
def sampleClock (k : Nat) : Int :=
  3000000000 * k

/-! ## The properties as the specification words them -/

/-- Whitespace as the specification lists it for annotation blocks: spaces,
newlines, tabs and carriage returns. -/
def specWhitespace (c : Char) : Bool :=
  c == ' ' || c == '\n' || c == '\t' || c == '\r'

/-- The annotation as the specification words it: every block trimmed of
surrounding whitespace, the empty ones dropped, the rest joined by single
spaces. -/
def specAnnotationText (blocks : List String) : String :=
  Join ((blocks.map (trimFunc specWhitespace)).filter (fun b => b ≠ "")) " "

/-- The display author as the specification words it: first, middle and last
name, each trimmed, those that are then non-empty joined by single spaces. -/
def specAuthor (a : Author) : String :=
  Join (([a.FirstName, a.MiddleName, a.LastName].map TrimSpace).filter (fun c => c ≠ "")) " "

/-- The number of open recognised elements after each token, as the
specification words it: an element is recognised when its start tag is
expected at the number of recognised elements open around it, and every end
tag closes the innermost open element. `opened` lists the open elements,
innermost first, each with whether it was recognised on entry. -/
def specDepthTrace (opened : List Bool) : List Token → List Nat
  | [] => []
  | Token.StartElement name :: rest =>
    let recognised := (lookupTag (opened.count true) name).isSome
    (recognised :: opened).count true :: specDepthTrace (recognised :: opened) rest
  | Token.EndElement _ :: rest =>
    opened.tail.count true :: specDepthTrace opened.tail rest
  | _ :: rest => opened.count true :: specDepthTrace opened rest

/-- A document whose annotation element holds the given text blocks, one
paragraph each, up to the end tag of `description`. -/
def annotationDocument (blocks : List String) : List Token :=
  [Token.StartElement "FictionBook", Token.StartElement "description",
    Token.StartElement "title-info", Token.StartElement "annotation"] ++
  (blocks.map (fun b => [Token.StartElement "p", Token.CharData b, Token.EndElement "p"])).flatten ++
  [Token.EndElement "annotation", Token.EndElement "title-info",
    Token.EndElement "description"]

/-- Before `title-info` opens the loop has stored nothing. -/
def Unopened (s : PState) : Prop :=
  s.depth ≤ 2 ∧ capturing s.inElement = false ∧ s.result = {}

/-- The invariant of the loop of `storeToDB`. -/
def SinkInv (clock : Nat → Int) (s : Sink) : Prop :=
  s.panicked = false ∧ 1 ≤ s.reads ∧ s.start ≤ s.last ∧ s.last ≤ clock (s.reads - 1) ∧
    s.last = s.start + fiveSeconds * s.log.length ∧
    ∀ l ∈ s.log, fiveSeconds < l.sinceLast ∧ 5 ≤ l.divisor

/-- The number of parse attempts among the events of a worker. -/
def attempts : List Event → Nat
  | [] => 0
  | Event.parseAttempt _ _ :: rest => attempts rest + 1
  | _ :: rest => attempts rest

/-- The blocks that lines 99-102 keep: trimmed of spaces and newlines, the
empty ones dropped. -/
def keptBlocks (blocks : List String) : List String :=
  (blocks.map (trimFunc annotationCutset)).filter (fun b => b ≠ "")

/-- The result with further annotation blocks appended. -/
def addBlocks (r : FB2) (blocks : List String) : FB2 :=
  { r with TitleInfo := { r.TitleInfo with Annotation := r.TitleInfo.Annotation ++ blocks } }

/-! ## The loop of parseXML on runs of tokens -/

theorem parseXMLFrom_append (s : PState) (toks : List Token) (rest : List Step) :
    parseXMLFrom s (toks.map Step.tok ++ rest) =
      match scan s toks with
      | Sum.inl s' => parseXMLFrom s' rest
      | Sum.inr r => (r, none) := by
  induction toks generalizing s with
  | nil => simp [scan]
  | cons t toks ih =>
    simp only [List.map_cons, List.cons_append, parseXMLFrom, scan]
    cases h : stepToken s t with
    | inl s' => simp [ih]
    | inr r => simp

theorem scan_append (s : PState) (a b : List Token) :
    scan s (a ++ b) =
      match scan s a with
      | Sum.inl s' => scan s' b
      | Sum.inr r => Sum.inr r := by
  induction a generalizing s with
  | nil => simp [scan]
  | cons t a ih =>
    simp only [List.cons_append, scan]
    cases h : stepToken s t with
    | inl s' => simp [ih]
    | inr r => simp

theorem applyText_of_not_capturing (name text : String) (r : FB2)
    (h : capturing name = false) : applyText name text r = r := by
  unfold applyText
  split <;> first | rfl | (simp [capturing] at h)

theorem stepToken_ignored (s : PState) (t : Token) (hs : capturing s.inElement = false)
    (ht : ignoredAt s.depth t = true) : stepToken s t = Sum.inl s := by
  cases t with
  | StartElement name =>
    simp only [ignoredAt, Option.isNone_iff_eq_none] at ht
    simp [stepToken, ht]
  | EndElement name =>
    simp only [ignoredAt, Option.isNone_iff_eq_none] at ht
    simp [stepToken, ht]
  | CharData text =>
    simp only [stepToken]
    split
    · rfl
    · rw [applyText_of_not_capturing _ _ _ hs]
  | Other => rfl

theorem scan_ignored (d : Int) (e : String) (r : FB2) (toks : List Token)
    (hs : capturing e = false) (h : Ignored d toks) :
    scan ⟨d, e, r⟩ toks = Sum.inl ⟨d, e, r⟩ := by
  induction toks with
  | nil => rfl
  | cons t toks ih =>
    have ht := h t (List.mem_cons_self _ _)
    simp only [scan, stepToken_ignored ⟨d, e, r⟩ t hs ht]
    exact ih (fun x hx => h x (List.mem_cons_of_mem _ hx))

theorem scan_element (d : Int) (e : String) (r : FB2) (name text : String)
    (h : lookupTag d name = some false) (hne : name ≠ "") :
    scan ⟨d, e, r⟩ (element name text) = Sum.inl ⟨d, "", applyText name text r⟩ := by
  simp [scan, element, stepToken, h, hne]

theorem scan_authorItem (r : FB2) (e : String) (c : AuthorItem) :
    scan ⟨4, e, r⟩ c.tokens =
      Sum.inl ⟨4, "", withAuthor r (AuthorItem.store r.TitleInfo.Author c)⟩ := by
  cases c <;>
    (rw [AuthorItem.tokens, scan_element 4 e r _ _ (by decide) (by decide)]; rfl)

theorem scan_children (r : FB2) (e : String) (he : capturing e = false)
    (children : List (AuthorItem × List Token))
    (hgaps : ∀ c ∈ children, Ignored 4 c.2) :
    ∃ e', capturing e' = false ∧
      scan ⟨4, e, r⟩ (interleave AuthorItem.tokens children) =
        Sum.inl ⟨4, e', withAuthor r
          ((children.map Prod.fst).foldl AuthorItem.store r.TitleInfo.Author)⟩ := by
  induction children generalizing r e with
  | nil => exact ⟨e, he, rfl⟩
  | cons c children ih =>
    obtain ⟨c, gap⟩ := c
    have hgap : Ignored 4 gap := hgaps (c, gap) (List.mem_cons_self _ _)
    obtain ⟨e', he', h⟩ := ih (withAuthor r (AuthorItem.store r.TitleInfo.Author c)) ""
      (show capturing "" = false by decide) (fun x hx => hgaps x (List.mem_cons_of_mem _ hx))
    refine ⟨e', he', ?_⟩
    simp only [interleave, List.append_assoc, scan_append, scan_authorItem]
    rw [scan_ignored 4 "" _ gap (by decide) hgap]
    simpa [withAuthor] using h

theorem scan_infoItem (r : FB2) (e : String) (item : InfoItem)
    (hitem : ∀ lead children, item = InfoItem.author lead children →
      Ignored 4 lead ∧ ∀ c ∈ children, Ignored 4 c.2) :
    scan ⟨3, e, r⟩ item.tokens =
      Sum.inl ⟨3, "", withTitleInfo r (InfoItem.store r.TitleInfo item)⟩ := by
  cases item with
  | author lead children =>
    obtain ⟨hlead, hgaps⟩ := hitem lead children rfl
    obtain ⟨e', he', h⟩ := scan_children r "author" (by decide) children hgaps
    have hstart : stepToken ⟨3, e, r⟩ (Token.StartElement "author") =
        Sum.inl ⟨4, "author", r⟩ := by
      simp [stepToken, show lookupTag 3 "author" = some false by decide]
    have hend : ∀ r', stepToken ⟨4, e', r'⟩ (Token.EndElement "author") =
        Sum.inl ⟨3, "", r'⟩ := by
      intro r'
      simp [stepToken, show lookupTag 3 "author" = some false by decide]
    simp only [InfoItem.tokens, List.cons_append, scan, hstart, List.append_eq,
      List.append_assoc, scan_append]
    rw [scan_ignored 4 "author" r lead (by decide) hlead]
    simp only [h, scan, hend]
    rfl
  | genre text =>
    rw [InfoItem.tokens, scan_element 3 e r _ _ (by decide) (by decide)]; rfl
  | bookTitle text =>
    rw [InfoItem.tokens, scan_element 3 e r _ _ (by decide) (by decide)]; rfl
  | date text =>
    rw [InfoItem.tokens, scan_element 3 e r _ _ (by decide) (by decide)]; rfl
  | lang text =>
    rw [InfoItem.tokens, scan_element 3 e r _ _ (by decide) (by decide)]; rfl

theorem scan_items (r : FB2) (e : String) (he : capturing e = false)
    (items : List (InfoItem × List Token))
    (hgaps : ∀ it ∈ items, Ignored 3 it.2)
    (hauthors : ∀ it ∈ items, ∀ lead children, it.1 = InfoItem.author lead children →
      Ignored 4 lead ∧ ∀ c ∈ children, Ignored 4 c.2) :
    ∃ e', capturing e' = false ∧
      scan ⟨3, e, r⟩ (interleave InfoItem.tokens items) =
        Sum.inl ⟨3, e', withTitleInfo r
          ((items.map Prod.fst).foldl InfoItem.store r.TitleInfo)⟩ := by
  induction items generalizing r e with
  | nil => exact ⟨e, he, rfl⟩
  | cons it items ih =>
    obtain ⟨item, gap⟩ := it
    have hgap : Ignored 3 gap := hgaps (item, gap) (List.mem_cons_self _ _)
    have hitem := hauthors (item, gap) (List.mem_cons_self _ _)
    obtain ⟨e', he', h⟩ := ih (withTitleInfo r (InfoItem.store r.TitleInfo item)) ""
      (show capturing "" = false by decide)
      (fun x hx => hgaps x (List.mem_cons_of_mem _ hx))
      (fun x hx => hauthors x (List.mem_cons_of_mem _ hx))
    refine ⟨e', he', ?_⟩
    simp only [interleave, List.append_assoc, scan_append, scan_infoItem r e item hitem]
    rw [scan_ignored 3 "" _ gap (by decide) hgap]
    simpa [withTitleInfo] using h

theorem store_children_perm (a : Author) (cs : List AuthorItem) (first middle last nick : String)
    (h : cs.Perm [AuthorItem.firstName first, AuthorItem.middleName middle,
      AuthorItem.lastName last, AuthorItem.nickname nick]) :
    cs.foldl AuthorItem.store a =
      { FirstName := first, MiddleName := middle, LastName := last, Nickname := nick } := by
  rw [← List.Perm.foldl_eq' h.symm]
  · rfl
  · intro x hx y hy z
    simp only [List.mem_cons, List.mem_singleton, List.not_mem_nil, or_false] at hx hy
    rcases hx with rfl | rfl | rfl | rfl <;> rcases hy with rfl | rfl | rfl | rfl <;> rfl

theorem store_items_perm (ti : TitleInfo) (its : List InfoItem)
    (genre bookTitle date lang : String) (lead : List Token)
    (children : List (AuthorItem × List Token))
    (h : its.Perm [InfoItem.genre genre, InfoItem.bookTitle bookTitle, InfoItem.date date,
      InfoItem.lang lang, InfoItem.author lead children]) :
    its.foldl InfoItem.store ti =
      { Genre := genre, BookTitle := bookTitle, Date := date, Lang := lang,
        Annotation := ti.Annotation,
        Author := (children.map Prod.fst).foldl AuthorItem.store ti.Author } := by
  rw [← List.Perm.foldl_eq' h.symm]
  · rfl
  · intro x hx y hy z
    simp only [List.mem_cons, List.mem_singleton, List.not_mem_nil, or_false] at hx hy
    rcases hx with rfl | rfl | rfl | rfl | rfl <;>
      rcases hy with rfl | rfl | rfl | rfl | rfl <;> rfl

/-- C1: a document that opens FictionBook, description and title-info, whose
title-info holds, in any order, one genre, book-title, date and lang element
and one author element holding, in any order, one first-name, middle-name,
last-name and nickname element, each with a single text token, with runs of
text and unrecognised elements (tags for which the table has no entry where
they open and close) anywhere between them, and that ends at end-of-stream or
goes on after the end tag of description, is parsed without error into
exactly those text tokens. -/
theorem parseXML_title_info (pre0 pre1 pre2 pre3 post2 lead : List Token)
    (items : List (InfoItem × List Token)) (children : List (AuthorItem × List Token))
    (genre bookTitle date lang first middle last nick : String) (fin : List Step)
    (h0 : Ignored 0 pre0) (h1 : Ignored 1 pre1) (h2 : Ignored 2 pre2) (h3 : Ignored 3 pre3)
    (hpost : Ignored 2 post2)
    (hitems : (items.map Prod.fst).Perm [InfoItem.genre genre, InfoItem.bookTitle bookTitle,
      InfoItem.date date, InfoItem.lang lang, InfoItem.author lead children])
    (hgaps : ∀ it ∈ items, Ignored 3 it.2)
    (hlead : Ignored 4 lead)
    (hchildren : (children.map Prod.fst).Perm [AuthorItem.firstName first,
      AuthorItem.middleName middle, AuthorItem.lastName last, AuthorItem.nickname nick])
    (hcgaps : ∀ c ∈ children, Ignored 4 c.2)
    (hfin : fin = [] ∨ ∃ rest, fin = Step.tok (Token.EndElement "description") :: rest) :
    parseXML ((document pre0 pre1 pre2 pre3 items post2).map Step.tok ++ fin) =
      ({ TitleInfo :=
          { Genre := genre
            Author := { FirstName := first, MiddleName := middle, LastName := last,
                        Nickname := nick }
            BookTitle := bookTitle
            Date := date
            Lang := lang } }, none) := by
  have hauthors : ∀ it ∈ items, ∀ lead' children', it.1 = InfoItem.author lead' children' →
      Ignored 4 lead' ∧ ∀ c ∈ children', Ignored 4 c.2 := by
    intro it hit lead' children' heq
    have hmem : it.1 ∈ items.map Prod.fst := List.mem_map_of_mem _ hit
    have hmem' := hitems.subset hmem
    rw [heq] at hmem'
    simp only [List.mem_cons, List.mem_singleton, List.not_mem_nil, or_false,
      InfoItem.author.injEq, reduceCtorEq, false_or] at hmem'
    obtain ⟨rfl, rfl⟩ := hmem'
    exact ⟨hlead, hcgaps⟩
  obtain ⟨e', he', hscan⟩ := scan_items {} "title-info" (by decide) items hgaps hauthors
  have hFB : stepToken ⟨0, "", {}⟩ (Token.StartElement "FictionBook") =
      Sum.inl ⟨1, "FictionBook", {}⟩ := by decide
  have hD : stepToken ⟨1, "FictionBook", {}⟩ (Token.StartElement "description") =
      Sum.inl ⟨2, "description", {}⟩ := by decide
  have hTI : stepToken ⟨2, "description", {}⟩ (Token.StartElement "title-info") =
      Sum.inl ⟨3, "title-info", {}⟩ := by decide
  have hEnd : ∀ r, stepToken ⟨3, e', r⟩ (Token.EndElement "title-info") =
      Sum.inl ⟨2, "", r⟩ := by
    intro r
    simp [stepToken, show lookupTag 2 "title-info" = some false by decide]
  have hscanDoc : scan {} (document pre0 pre1 pre2 pre3 items post2) =
      Sum.inl ⟨2, "", withTitleInfo {}
        ((items.map Prod.fst).foldl InfoItem.store ({} : FB2).TitleInfo)⟩ := by
    simp only [document, scan_append, scan, List.cons_append, List.append_assoc]
    rw [scan_ignored 0 "" {} pre0 (by decide) h0]
    simp only [hFB]
    rw [scan_ignored 1 "FictionBook" {} pre1 (by decide) h1]
    simp only [scan, hD, scan_append]
    rw [scan_ignored 2 "description" {} pre2 (by decide) h2]
    simp only [scan, hTI, scan_append]
    rw [scan_ignored 3 "title-info" {} pre3 (by decide) h3]
    simp only [hscan, scan, hEnd]
    rw [scan_ignored 2 "" _ post2 (by decide) hpost]
  rw [parseXML, parseXMLFrom_append, hscanDoc]
  simp only [store_items_perm _ _ _ _ _ _ _ _ hitems, store_children_perm _ _ _ _ _ _ hchildren]
  rcases hfin with rfl | ⟨rest, rfl⟩
  · rfl
  · simp only [parseXMLFrom, stepToken,
      show lookupTag (2 - 1) "description" = some true by decide]
    rfl

/-- C1 at `sampleDocument`, followed by the end tag of `description` and a
decode error. -/
theorem parseXML_title_info_witness :
    parseXML (sampleDocument.map Step.tok ++
        [Step.tok (Token.EndElement "description"), Step.fail "XML syntax error"]) =
      ({ TitleInfo :=
          { Genre := "sf_fantasy"
            Author := { FirstName := "Jane", MiddleName := "Q.", LastName := "Doe",
                        Nickname := "JD" }
            BookTitle := "A Title"
            Date := "2001"
            Lang := "en" } }, none) :=
  parseXML_title_info _ _ _ _ _ [Token.CharData "\n    "] sampleItems sampleChildren
    "sf_fantasy" "A Title" "2001" "en" "Jane" "Q." "Doe" "JD" _
    (by decide) (by decide) (by decide) (by decide) (by decide) (by decide) (by decide)
    (by decide) (by decide) (by decide) (Or.inr ⟨_, rfl⟩)

/-! ## Streams without a title-info section -/

theorem mem_of_lookup {α β : Type} [BEq α] [LawfulBEq α] (k : α) (v : β) (l : List (α × β))
    (h : l.lookup k = some v) : (k, v) ∈ l := by
  induction l with
  | nil => simp [List.lookup] at h
  | cons p l ih =>
    obtain ⟨k', v'⟩ := p
    simp only [List.lookup] at h
    split at h
    · rename_i hk
      have hk' : k = k' := by simpa using hk
      simp only [Option.some.injEq] at h
      subst hk' h
      exact List.mem_cons_self _ _
    · exact List.mem_cons_of_mem _ (ih h)

theorem lookupTag_some (d : Int) (name : String) (b : Bool) (h : lookupTag d name = some b) :
    (d = 0 ∧ name = "FictionBook" ∧ b = false) ∨
    (d = 1 ∧ name = "description" ∧ b = true) ∨
    (d = 2 ∧ name = "title-info" ∧ b = false) ∨
    (d = 3 ∧ b = false ∧
      name ∈ ["genre", "author", "book-title", "annotation", "date", "lang"]) ∨
    (d = 4 ∧ b = false ∧ name ∈ ["first-name", "middle-name", "last-name", "nickname"]) := by
  unfold lookupTag at h
  cases hm : infoTags.lookup d with
  | none => simp [hm] at h
  | some m =>
    simp only [hm] at h
    have h1 := mem_of_lookup d m infoTags hm
    have h2 := mem_of_lookup name b m h
    simp only [infoTags, List.mem_cons, Prod.mk.injEq, List.mem_singleton, List.not_mem_nil,
      or_false] at h1
    rcases h1 with ⟨rfl, rfl⟩ | ⟨rfl, rfl⟩ | ⟨rfl, rfl⟩ | ⟨rfl, rfl⟩ | ⟨rfl, rfl⟩ <;>
      simp only [List.mem_cons, Prod.mk.injEq, List.mem_singleton, List.not_mem_nil,
        or_false] at h2 <;> simp <;> tauto

theorem stepToken_unopened (s : PState) (t : Token) (hs : Unopened s)
    (ht : t ≠ Token.StartElement "title-info") :
    (∃ s', stepToken s t = Sum.inl s' ∧ Unopened s') ∨ stepToken s t = Sum.inr {} := by
  obtain ⟨hd, hc, hr⟩ := hs
  cases t with
  | StartElement name =>
    left
    simp only [stepToken]
    cases h : lookupTag s.depth name with
    | none => exact ⟨s, rfl, hd, hc, hr⟩
    | some b =>
      refine ⟨_, rfl, ?_, ?_, hr⟩
      · rcases lookupTag_some _ _ _ h with h' | h' | h' | h' | h'
        · show s.depth + 1 ≤ 2
          omega
        · show s.depth + 1 ≤ 2
          omega
        · exact absurd (by rw [h'.2.1]) ht
        · omega
        · omega
      · rcases lookupTag_some _ _ _ h with h' | h' | h' | h' | h'
        · show capturing name = false
          rw [h'.2.1]; decide
        · show capturing name = false
          rw [h'.2.1]; decide
        · exact absurd (by rw [h'.2.1]) ht
        · omega
        · omega
  | EndElement name =>
    simp only [stepToken]
    cases h : lookupTag (s.depth - 1) name with
    | none => exact Or.inl ⟨s, rfl, hd, hc, hr⟩
    | some b =>
      cases b with
      | true => right; simp [hr]
      | false =>
        left
        refine ⟨_, rfl, ?_, (show capturing "" = false by decide), hr⟩
        show s.depth - 1 ≤ 2
        omega
  | CharData text =>
    left
    simp only [stepToken]
    split
    · exact ⟨s, rfl, hd, hc, hr⟩
    · exact ⟨_, rfl, hd, hc, by rw [applyText_of_not_capturing _ _ _ hc]; exact hr⟩
  | Other => exact Or.inl ⟨s, rfl, hd, hc, hr⟩

theorem scan_unopened (s : PState) (toks : List Token) (hs : Unopened s)
    (ht : Token.StartElement "title-info" ∉ toks) :
    (∃ s', scan s toks = Sum.inl s' ∧ Unopened s') ∨ scan s toks = Sum.inr {} := by
  induction toks generalizing s with
  | nil => exact Or.inl ⟨s, rfl, hs⟩
  | cons t toks ih =>
    have ht1 : t ≠ Token.StartElement "title-info" := fun h => ht (h ▸ List.mem_cons_self _ _)
    have ht2 : Token.StartElement "title-info" ∉ toks :=
      fun h => ht (List.mem_cons_of_mem _ h)
    simp only [scan]
    rcases stepToken_unopened s t hs ht1 with ⟨s', h, hs'⟩ | h
    · simp only [h]
      exact ih s' hs' ht2
    · simp [h]

/-- C7: on an error-free token stream that reaches end-of-stream, parseXML
returns no error and the fields collected so far (the result of the state the
loop is in after the last token); when the stream holds no title-info start
tag that result has every field empty, and the Record built from it has
empty title, author, genre, annotation, date and lowercased fields. -/
theorem parseXML_end_of_stream (lowerRune : Char → Char) (zipfilename zfName : String)
    (toks : List Token) :
    parseXML (toks.map Step.tok) =
        (match scan {} toks with
          | Sum.inl s => s.result
          | Sum.inr r => r, none) ∧
      (Token.StartElement "title-info" ∉ toks →
        parseXML (toks.map Step.tok) = ({}, none) ∧
        buildBook lowerRune zipfilename zfName (parseXML (toks.map Step.tok)).1 =
          { ZipFilename := zipfilename, Filename := Base zfName }) := by
  have h := parseXMLFrom_append {} toks []
  simp only [List.append_nil] at h
  have hgen : parseXML (toks.map Step.tok) =
      (match scan {} toks with
        | Sum.inl s => s.result
        | Sum.inr r => r, none) := by
    rw [parseXML, h]
    cases scan {} toks <;> rfl
  refine ⟨hgen, fun hno => ?_⟩
  have hres : parseXML (toks.map Step.tok) = ({}, none) := by
    rw [hgen]
    rcases scan_unopened {} toks ⟨by decide, by decide, rfl⟩ hno with ⟨s', h', _, _, hr⟩ | h'
    · simp [h', hr]
    · simp [h']
  refine ⟨hres, ?_⟩
  rw [hres]
  rfl

/-- C7 at a document with a body and no description. -/
theorem parseXML_end_of_stream_witness :
    parseXML (sampleBodyOnly.map Step.tok) = ({}, none) ∧
      buildBook id "lib.zip" "book.fb2" (parseXML (sampleBodyOnly.map Step.tok)).1 =
        { ZipFilename := "lib.zip", Filename := "book.fb2" } :=
  (parseXML_end_of_stream id "lib.zip" "book.fb2" sampleBodyOnly).2 (by decide)

/-! ## Where the loop stops -/

theorem stepToken_return (s : PState) (t : Token) (r : FB2) (h : stepToken s t = Sum.inr r) :
    t = Token.EndElement "description" ∧ s.depth = 2 ∧ r = s.result := by
  cases t with
  | StartElement name =>
    simp only [stepToken] at h
    split at h <;> simp at h
  | CharData text =>
    simp only [stepToken] at h
    split at h <;> simp at h
  | Other => simp [stepToken] at h
  | EndElement name =>
    simp only [stepToken] at h
    split at h
    · rename_i hl
      rcases lookupTag_some _ _ _ hl with h' | h' | h' | h' | h'
      · simp at h'
      · simp only [Sum.inr.injEq] at h
        exact ⟨by rw [h'.2.1], by omega, h.symm⟩
      · simp at h'
      · simp at h'
      · simp at h'
    · simp at h
    · simp at h

/-- C3, as stated, fails: after the end tag that closes title-info a decode
error still makes parseXML fail, and a further title-info element still
changes the result. -/
theorem parseXML_after_title_info :
    parseXML (closedTitleInfo.map Step.tok) = ({ TitleInfo := { Genre := "sf" } }, none) ∧
      parseXML (closedTitleInfo.map Step.tok ++ [Step.fail "XML syntax error"]) =
        ({ TitleInfo := { Genre := "sf" } }, some "XML syntax error") ∧
      parseXML (closedTitleInfo.map Step.tok ++ secondTitleInfo.map Step.tok) =
        ({ TitleInfo := { Genre := "prose" } }, none) := by
  decide

/-- C3, as amended: parseXML stops at the end tag named description that it
reads while its depth is 2 (the close of the description element that holds
title-info): the result is the one collected up to that tag, the error is
nil, and no token after it is read. -/
theorem parseXML_stops_at_description (pre : List Token) (s : PState) (post : List Step)
    (hscan : scan {} pre = Sum.inl s) (hdepth : s.depth = 2) :
    parseXML (pre.map Step.tok ++ Step.tok (Token.EndElement "description") :: post) =
      (s.result, none) := by
  rw [parseXML, parseXMLFrom_append, hscan]
  simp only [parseXMLFrom, stepToken, hdepth,
    show lookupTag (2 - 1) "description" = some true by decide]

/-- C3, as amended, at `closedDocumentInfo`: the decode error behind the end
tag of description is never read. -/
theorem parseXML_stops_at_description_witness :
    parseXML (closedDocumentInfo.map Step.tok ++
        Step.tok (Token.EndElement "description") :: [Step.fail "XML syntax error"]) =
      ({ TitleInfo := { Genre := "sf" } }, none) :=
  parseXML_stops_at_description closedDocumentInfo ⟨2, "", { TitleInfo := { Genre := "sf" } }⟩
    [Step.fail "XML syntax error"] (by decide) rfl

/-! ## The depth counter -/

theorem stepToken_depth_bounds (s s' : PState) (t : Token) (h : stepToken s t = Sum.inl s')
    (hs : 0 ≤ s.depth ∧ s.depth ≤ 5) : 0 ≤ s'.depth ∧ s'.depth ≤ 5 := by
  cases t with
  | StartElement name =>
    simp only [stepToken] at h
    split at h
    · rename_i b hl
      simp only [Sum.inl.injEq] at h
      subst h
      show 0 ≤ s.depth + 1 ∧ s.depth + 1 ≤ 5
      rcases lookupTag_some _ _ _ hl with h' | h' | h' | h' | h' <;> omega
    · simp only [Sum.inl.injEq] at h
      subst h; exact hs
  | CharData text =>
    simp only [stepToken] at h
    split at h <;> (simp only [Sum.inl.injEq] at h; subst h; exact hs)
  | Other =>
    simp only [stepToken, Sum.inl.injEq] at h
    subst h; exact hs
  | EndElement name =>
    simp only [stepToken] at h
    split at h
    · simp at h
    · rename_i hl
      simp only [Sum.inl.injEq] at h
      subst h
      show 0 ≤ s.depth - 1 ∧ s.depth - 1 ≤ 5
      rcases lookupTag_some _ _ _ hl with h' | h' | h' | h' | h' <;> omega
    · simp only [Sum.inl.injEq] at h
      subst h; exact hs

theorem scan_depth_bounds (s s' : PState) (toks : List Token) (h : scan s toks = Sum.inl s')
    (hs : 0 ≤ s.depth ∧ s.depth ≤ 5) : 0 ≤ s'.depth ∧ s'.depth ≤ 5 := by
  induction toks generalizing s with
  | nil =>
    simp only [scan, Sum.inl.injEq] at h
    subst h; exact hs
  | cons t toks ih =>
    simp only [scan] at h
    cases hst : stepToken s t with
    | inl s1 =>
      rw [hst] at h
      exact ih s1 h (stepToken_depth_bounds s s1 t hst hs)
    | inr r =>
      rw [hst] at h
      simp at h

/-- C9 at `annotatedDate`: the end tag of the `date` element inside
annotation, whose start tag was not recognised at depth 4, is looked up at
depth 3 and found: the depth drops to 3 and the capturing name is reset while
FictionBook, description, title-info and annotation are still open, and the
text after it is lost. -/
theorem depthTrace_annotated_date :
    depthTrace {} annotatedDate = [1, 2, 3, 4, 4, 4, 3, 3, 3, 2] ∧
      specDepthTrace [] annotatedDate = [1, 2, 3, 4, 4, 4, 4, 4, 3, 2] ∧
      scan {} (annotatedDate.take 7) = Sum.inl ⟨3, "", { TitleInfo := { Annotation := ["1900"] } }⟩ ∧
      TitleInfo.Annotation (parseXML (annotatedDate.map Step.tok)).1.TitleInfo = ["1900"] := by
  decide

/-! ## The worker -/

theorem buildBook_lowercase (lowerRune : Char → Char) (zipfilename zfName : String) (fb2 : FB2) :
    (buildBook lowerRune zipfilename zfName fb2).AuthorLC =
        ToLower lowerRune (buildBook lowerRune zipfilename zfName fb2).Author ∧
      (buildBook lowerRune zipfilename zfName fb2).TitleLC =
        ToLower lowerRune (buildBook lowerRune zipfilename zfName fb2).Title ∧
      (buildBook lowerRune zipfilename zfName fb2).AnnotationLC =
        ToLower lowerRune (Book.Annotation (buildBook lowerRune zipfilename zfName fb2)) :=
  ⟨rfl, rfl, rfl⟩

theorem emittedBooks_parse (lowerRune : Char → Char) (tasks : List Task) (b : Book)
    (hb : b ∈ emittedBooks (parse lowerRune tasks)) :
    ∃ task ∈ tasks, ∃ fb2, b = buildBook lowerRune task.zipfilename task.zfName fb2 := by
  induction tasks with
  | nil => simp [parse, emittedBooks] at hb
  | cons task tasks ih =>
    have hrest : b ∈ emittedBooks (parse lowerRune tasks) →
        ∃ task' ∈ task :: tasks, ∃ fb2, b = buildBook lowerRune task'.zipfilename task'.zfName fb2 := by
      intro h
      obtain ⟨t, ht, fb2, hfb⟩ := ih h
      exact ⟨t, List.mem_cons_of_mem _ ht, fb2, hfb⟩
    unfold parse at hb
    split at hb
    · simp only [emittedBooks] at hb
      exact hrest hb
    · split at hb
      · simp only [emittedBooks, List.mem_cons] at hb
        rcases hb with rfl | hb
        · exact ⟨task, List.mem_cons_self _ _, _, rfl⟩
        · exact hrest hb
      · split at hb
        · simp [emittedBooks] at hb
        · split at hb
          · simp only [emittedBooks] at hb
            exact hrest hb
          · simp only [emittedBooks, List.mem_cons] at hb
            rcases hb with rfl | hb
            · exact ⟨task, List.mem_cons_self _ _, _, rfl⟩
            · exact hrest hb

/-- C8: every Record that the worker emits has AuthorLC, TitleLC and
AnnotationLC equal to the lowercase transform of the Author, Title and
Annotation stored in the same Record. -/
theorem parse_lowercase (lowerRune : Char → Char) (tasks : List Task) (b : Book)
    (hb : b ∈ emittedBooks (parse lowerRune tasks)) :
    b.AuthorLC = ToLower lowerRune b.Author ∧ b.TitleLC = ToLower lowerRune b.Title ∧
      b.AnnotationLC = ToLower lowerRune b.Annotation := by
  obtain ⟨task, _, fb2, rfl⟩ := emittedBooks_parse lowerRune tasks b hb
  exact buildBook_lowercase lowerRune task.zipfilename task.zfName fb2

/-- C8 at the Record of `plainTask`. -/
theorem parse_lowercase_witness :
    plainBook ∈ emittedBooks (parse Char.toLower [plainTask]) ∧
      plainBook.AuthorLC = ToLower Char.toLower plainBook.Author ∧
      plainBook.TitleLC = ToLower Char.toLower plainBook.Title ∧
      plainBook.AnnotationLC = ToLower Char.toLower plainBook.Annotation :=
  ⟨by decide, parse_lowercase Char.toLower [plainTask] plainBook (by decide)⟩

/-- What one task makes a worker do: at most two parse attempts, at most one
Record, and a panic exactly when the first parse fails and the reopen fails. -/
theorem parse_single_task (lowerRune : Char → Char) (task : Task) :
    attempts (parse lowerRune [task]) ≤ 2 ∧
      (emittedBooks (parse lowerRune [task])).length ≤ 1 ∧
      (Event.panicked ∈ parse lowerRune [task] ↔
        ∃ dec err e, task.open1 = Except.ok dec ∧ (parseXML dec).2 = some err ∧
          task.open2 = Except.error e) := by
  unfold parse
  split
  · rename_i err h1
    simp [parse, attempts, emittedBooks, h1]
  · rename_i dec h1
    split
    · rename_i fb2 h2
      simp [parse, attempts, emittedBooks, h1, h2]
    · rename_i r origErr h2
      split
      · rename_i e h3
        simp [attempts, emittedBooks, h1, h2, h3]
      · rename_i dec2 h3
        split
        · simp [parse, attempts, emittedBooks, h1, h2, h3]
        · simp [parse, attempts, emittedBooks, h1, h2, h3]

/-- C6 at a task whose reopen fails: the worker panics after the first
attempt and never reaches the next task, which alone would have produced a
Record. -/
theorem parse_reopen_failure :
    parse id [reopenFails, plainTask] = [Event.parseAttempt false true, Event.panicked] ∧
      emittedBooks (parse id [reopenFails, plainTask]) = [] ∧
      (emittedBooks (parse id [plainTask])).length = 1 := by
  decide

/-- The display author is the one the specification words whenever no
component is non-empty and made of whitespace only. -/
theorem buildBook_author_spec (lowerRune : Char → Char) (zipfilename zfName : String) (fb2 : FB2)
    (h1 : fb2.TitleInfo.Author.FirstName = "" ∨ TrimSpace fb2.TitleInfo.Author.FirstName ≠ "")
    (h2 : fb2.TitleInfo.Author.MiddleName = "" ∨ TrimSpace fb2.TitleInfo.Author.MiddleName ≠ "")
    (h3 : fb2.TitleInfo.Author.LastName = "" ∨ TrimSpace fb2.TitleInfo.Author.LastName ≠ "") :
    (buildBook lowerRune zipfilename zfName fb2).Author = specAuthor fb2.TitleInfo.Author := by
  have hempty : TrimSpace "" = "" := by decide
  have hne : ∀ s : String, TrimSpace s ≠ "" → s ≠ "" := by
    intro s hs h
    rw [h] at hs
    exact hs hempty
  simp only [buildBook, specAuthor, List.map_cons, List.map_nil]
  rcases h1 with h1 | h1 <;> rcases h2 with h2 | h2 <;> rcases h3 with h3 | h3 <;>
    simp [h1, h2, h3, hempty, hne, List.filter]

/-- C4 at a first name that is a single space: the component passes the
emptiness test untrimmed, is trimmed to the empty string and joined, so the
display author starts with a space; the specification's example
(Jane, empty middle name, Doe) gives "Jane Doe". -/
theorem buildBook_whitespace_first_name (lowerRune : Char → Char) (zipfilename zfName : String) :
    (buildBook lowerRune zipfilename zfName whitespaceFirstName).Author = " Doe" ∧
      specAuthor whitespaceFirstName.TitleInfo.Author = "Doe" ∧
      (buildBook lowerRune zipfilename zfName janeDoe).Author = "Jane Doe" := by
  exact ⟨rfl, by decide, rfl⟩

theorem length_pos_iff_ne_empty (s : String) : s.length > 0 ↔ s ≠ "" := by
  obtain ⟨l⟩ := s
  cases l with
  | nil => simp [String.length]
  | cons c l =>
    simp only [String.length, List.length_cons, gt_iff_lt, Nat.zero_lt_succ, true_iff]
    intro h
    have := congrArg String.data h
    simp at this

theorem applyText_annotation (b : String) (r : FB2) :
    applyText "annotation" b r = addBlocks r (keptBlocks [b]) := by
  by_cases hb : trimFunc annotationCutset b = ""
  · have hlen : ¬ (trimFunc annotationCutset b).length > 0 := by
      rw [length_pos_iff_ne_empty]; simpa using hb
    simp [applyText, hlen, keptBlocks, hb, addBlocks]
  · have hlen : (trimFunc annotationCutset b).length > 0 := by
      rw [length_pos_iff_ne_empty]; exact hb
    simp [applyText, hlen, keptBlocks, hb, addBlocks]

theorem scan_paragraphs (r : FB2) (blocks : List String) :
    scan ⟨4, "annotation", r⟩
        (blocks.map (fun b =>
          [Token.StartElement "p", Token.CharData b, Token.EndElement "p"])).flatten =
      Sum.inl ⟨4, "annotation", addBlocks r (keptBlocks blocks)⟩ := by
  induction blocks generalizing r with
  | nil => simp [scan, keptBlocks, addBlocks]
  | cons b blocks ih =>
    have hstart : lookupTag 4 "p" = none := by decide
    have hend : lookupTag (4 - 1) "p" = none := by decide
    simp only [List.map_cons, List.flatten_cons, List.cons_append, List.nil_append, scan,
      stepToken, hstart, hend, show ("annotation" = "") = False by decide, if_false,
      List.append_eq]
    rw [ih, applyText_annotation]
    have hk : keptBlocks [b] ++ keptBlocks blocks = keptBlocks (b :: blocks) := by
      simp only [keptBlocks, List.map_cons, List.map_nil]
      rw [← List.filter_append]
      rfl
    simp [addBlocks, ← hk]

/-- The Annotation of the Record is the single-space join of the blocks that
lines 99-102 keep. -/
theorem annotationDocument_blocks (lowerRune : Char → Char) (zipfilename zfName : String)
    (blocks : List String) :
    Book.Annotation (buildBook lowerRune zipfilename zfName
        (parseXML ((annotationDocument blocks).map Step.tok)).1) =
      Join (keptBlocks blocks) " " := by
  have h := parseXMLFrom_append {} (annotationDocument blocks) []
  simp only [List.append_nil] at h
  have hscan : scan {} (annotationDocument blocks) =
      Sum.inr { TitleInfo := { Annotation := keptBlocks blocks } } := by
    have h4 : scan {} [Token.StartElement "FictionBook", Token.StartElement "description",
        Token.StartElement "title-info", Token.StartElement "annotation"] =
        Sum.inl ⟨4, "annotation", {}⟩ := by decide
    simp only [annotationDocument, scan_append, h4, scan_paragraphs]
    simp [scan, stepToken, addBlocks,
      show lookupTag (4 - 1) "annotation" = some false by decide,
      show lookupTag (3 - 1) "title-info" = some false by decide,
      show lookupTag (2 - 1) "description" = some true by decide]
    rfl
  rw [parseXML, h, hscan]
  rfl

/-- C5 at blocks that start with a tab: the cutset of line 99 holds only the
space and the newline, so a leading tab stays in the Annotation and a block
made of a newline and a tab is kept as a block of its own; the
specification's example gives "Intro. Body text". -/
theorem annotation_tab (lowerRune : Char → Char) (zipfilename zfName : String) :
    Book.Annotation (buildBook lowerRune zipfilename zfName
        (parseXML ((annotationDocument ["\tIntro. ", "", "Body text"]).map Step.tok)).1) =
        "\tIntro. Body text" ∧
      specAnnotationText ["\tIntro. ", "", "Body text"] = "Intro. Body text" ∧
      Book.Annotation (buildBook lowerRune zipfilename zfName
        (parseXML ((annotationDocument ["\n\t", "Intro."]).map Step.tok)).1) = "\t Intro." ∧
      specAnnotationText ["\n\t", "Intro."] = "Intro." ∧
      Book.Annotation (buildBook lowerRune zipfilename zfName
        (parseXML ((annotationDocument ["  Intro. ", "", "Body text"]).map Step.tok)).1) =
        "Intro. Body text" :=
  ⟨rfl, by decide, rfl, by decide, rfl⟩

/-! ## The scanner -/

/-- The existence check finds the Record of an entry whose name is its own
base name. -/
theorem Count_Save_plain_entry (lowerRune : Char → Char) (db : Store) (zipfilename zfName : String)
    (fb2 : FB2) (h : Base zfName = zfName) :
    0 < Count (Save db (buildBook lowerRune zipfilename zfName fb2)) zipfilename zfName := by
  simp [Count, Save, buildBook, h, List.filter_append]

/-- C2 at the archive `/books/lib.zip` and the entry `dir/book.fb2`: the
Record is stored under `filepath.Base` of the entry name, the existence check
asks for the full entry name, so the count is 0 and the scanner emits the
task again. -/
theorem scanArchive_entry_in_directory (lowerRune : Char → Char) (fb2 : FB2) :
    Count (Save [] (buildBook lowerRune (Base "/books/lib.zip") "dir/book.fb2" fb2))
        (Base "/books/lib.zip") "dir/book.fb2" = 0 ∧
      scanArchive (Save [] (buildBook lowerRune (Base "/books/lib.zip") "dir/book.fb2" fb2))
        "/books/lib.zip" [⟨"dir/book.fb2", false⟩] = [("lib.zip", "dir/book.fb2")] := by
  have h : Count (Save [] (buildBook lowerRune (Base "/books/lib.zip") "dir/book.fb2" fb2))
        (Base "/books/lib.zip") "dir/book.fb2" = 0 := by
    simp only [Count, Save, buildBook, List.nil_append, List.filter]
    rw [show Base "dir/book.fb2" = "book.fb2" by decide]
    simp
  refine ⟨h, ?_⟩
  simp only [scanArchive, h]
  rw [show Ext "dir/book.fb2" = ".fb2" by decide]
  simp
  decide

/-! ## The sink -/

theorem sinkStep_inv (clock : Nat → Int) (hmono : Monotone clock) (s : Sink) (book : Book)
    (h : SinkInv clock s) : SinkInv clock (sinkStep clock s book) ∧
      (sinkStep clock s book).start = s.start := by
  obtain ⟨hp, hr, hsl, hln, hlast, hlog⟩ := h
  have h1 : clock (s.reads - 1) ≤ clock s.reads := hmono (Nat.sub_le _ _)
  have h2 : clock s.reads ≤ clock (s.reads + 1) := hmono (Nat.le_succ _)
  unfold sinkStep
  simp only [hp, Bool.false_eq_true, if_false]
  by_cases hgt : clock s.reads - s.last > fiveSeconds
  · simp only [hgt, if_true]
    have hfive : fiveSeconds = 5000000000 := by decide
    have hnonneg : 0 ≤ clock (s.reads + 1) - s.start := by omega
    have hdiv : 5 ≤ Int.tdiv (clock (s.reads + 1) - s.start) 1000000000 := by
      rw [Int.tdiv_eq_ediv hnonneg (by decide)]
      omega
    have hne : ¬ Int.tdiv (clock (s.reads + 1) - s.start) 1000000000 = 0 := by omega
    simp only [hne, if_false]
    refine ⟨⟨by trivial, by simp, ?_, ?_, ?_, ?_⟩, trivial⟩
    · show s.start ≤ s.last + fiveSeconds
      omega
    · show s.last + fiveSeconds ≤ clock (s.reads + 2 - 1)
      have : s.reads + 2 - 1 = s.reads + 1 := by omega
      rw [this]; omega
    · show s.last + fiveSeconds = s.start + fiveSeconds * ((s.log ++ [_]).length : Nat)
      rw [List.length_append, List.length_singleton, hlast]
      push_cast
      ring
    · intro l hl
      rw [List.mem_append, List.mem_singleton] at hl
      rcases hl with hl | rfl
      · exact hlog l hl
      · exact ⟨hgt, hdiv⟩
  · simp only [hgt, if_false]
    refine ⟨⟨by trivial, by simp, hsl, ?_, hlast, hlog⟩, trivial⟩
    show s.last ≤ clock (s.reads + 1 - 1)
    have : s.reads + 1 - 1 = s.reads := by omega
    rw [this]; omega

theorem foldl_sinkStep_inv (clock : Nat → Int) (hmono : Monotone clock) (books : List Book)
    (s : Sink) (h : SinkInv clock s) :
    SinkInv clock (books.foldl (sinkStep clock) s) ∧
      (books.foldl (sinkStep clock) s).start = s.start := by
  induction books generalizing s with
  | nil => exact ⟨h, rfl⟩
  | cons b books ih =>
    obtain ⟨h1, h2⟩ := sinkStep_inv clock hmono s b h
    obtain ⟨h3, h4⟩ := ih _ h1
    exact ⟨h3, h4.trans h2⟩

/-- C10: for every non-decreasing clock and every sequence of Records,
storeToDB never divides by zero, keeps start <= last <= now (the latest
reading), has advanced last by exactly 5 seconds per throughput line, and
logged every line when more than 5 seconds had passed since last and with a
divisor of at least 5. -/
theorem storeToDB_divisor (clock : Nat → Int) (hmono : Monotone clock) (db : Store)
    (books : List Book) :
    (storeToDB clock db books).panicked = false ∧
      (storeToDB clock db books).start = clock 0 ∧
      (storeToDB clock db books).start ≤ (storeToDB clock db books).last ∧
      (storeToDB clock db books).last ≤ clock ((storeToDB clock db books).reads - 1) ∧
      (storeToDB clock db books).last =
        (storeToDB clock db books).start + fiveSeconds * (storeToDB clock db books).log.length ∧
      ∀ l ∈ (storeToDB clock db books).log, fiveSeconds < l.sinceLast ∧ 5 ≤ l.divisor := by
  have hinit : SinkInv clock (newSink clock db) :=
    ⟨rfl, le_refl _, le_refl _, le_refl _, by simp [newSink], by simp [newSink]⟩
  obtain ⟨⟨h1, _, h3, h4, h5, h6⟩, hstart⟩ := foldl_sinkStep_inv clock hmono books _ hinit
  exact ⟨h1, hstart, h3, h4, h5, h6⟩

theorem sampleClock_monotone : Monotone sampleClock := by
  intro a b hab
  have h : (a : Int) ≤ b := by exact_mod_cast hab
  show 3000000000 * (a : Int) ≤ 3000000000 * b
  omega

/-- C10 at four Records and a clock that advances three seconds a reading. -/
theorem storeToDB_divisor_witness :
    (storeToDB sampleClock [] [{}, {}, {}, {}]).panicked = false ∧
      (storeToDB sampleClock [] [{}, {}, {}, {}]).start = sampleClock 0 ∧
      (storeToDB sampleClock [] [{}, {}, {}, {}]).start ≤
        (storeToDB sampleClock [] [{}, {}, {}, {}]).last ∧
      (storeToDB sampleClock [] [{}, {}, {}, {}]).last ≤
        sampleClock ((storeToDB sampleClock [] [{}, {}, {}, {}]).reads - 1) ∧
      (storeToDB sampleClock [] [{}, {}, {}, {}]).last =
        (storeToDB sampleClock [] [{}, {}, {}, {}]).start +
          fiveSeconds * (storeToDB sampleClock [] [{}, {}, {}, {}]).log.length ∧
      ∀ l ∈ (storeToDB sampleClock [] [{}, {}, {}, {}]).log,
        fiveSeconds < l.sinceLast ∧ 5 ≤ l.divisor :=
  storeToDB_divisor sampleClock sampleClock_monotone [] [{}, {}, {}, {}]

end Flibrary
